import Mathlib

/-
Verification development for the SSAFY meal-menu server.

The single piece of logic with decision content is the tool function
`get_meal_menu` in `src/bob_server/server.py` (lines 89-163).  It receives a
date-keyed JSON feed, resolves the requested date (with a "USE_LATEST_DATE"
sentinel produced by the pydantic validator `handle_date_input`), parses the
date with `datetime.strptime(date_str, "%Y-%m-%d")`, looks up the day's entry
list, filters and groups the entries by floor, and renders a text report.

The embedding below models the Python dynamic values that can actually reach
this code from a JSON feed, restricted to the constructors the development
needs: `None`, integers and strings as primitives, and one level of
list-of-entries / dict structure below each date key.  Python dicts are
modelled as insertion-ordered association lists whose lookups and updates act
on the first matching key, which coincides with dict semantics whenever keys
are duplicate-free (always the case for real dicts).  Statements about
`str.upper`, `str.isdigit`-style character classes and `\d` in the strptime
regex are modelled over ASCII, on which the Lean primitives agree with
CPython; every concrete input used below is ASCII or Korean text that is not
case-mapped by either side.
-/

namespace Bob

/-- Primitive Python/JSON values that can sit in a meal-entry field. -/
inductive Prim where
  | pnone : Prim
  | pint : Int → Prim
  | pstr : String → Prim
deriving DecidableEq

/-- A meal entry: a Python dict with primitive values (`floor`, `type`, `name`). -/
abbrev Meal := List (String × Prim)

/-- One element of a day's entry list: either a dict (a meal record) or a
primitive that is not a record at all. -/
inductive Item where
  | mealItem : Meal → Item
  | primItem : Prim → Item
deriving DecidableEq

/-- The value stored under one date key of the feed: a list of items, a bare
primitive, or a nested dict. -/
inductive DayVal where
  | listVal : List Item → DayVal
  | primVal : Prim → DayVal
  | dictVal : List (String × Prim) → DayVal
deriving DecidableEq

/-- The feed: the top-level JSON object, a Python dict keyed by date strings
(insertion order significant). -/
abbrev Feed := List (String × DayVal)

/-- Runtime exceptions the Python code can raise while processing a feed. -/
inductive PyErr where
  | attributeError : PyErr
  | typeError : PyErr
deriving DecidableEq

/-- Python `d.get(k)` / `k in d` lookup: value at the first matching key. -/
def dget {α : Type} : List (String × α) → String → Option α
  | [], _ => none
  | (k2, v) :: rest, k => if k2 = k then some v else dget rest k

/-- Python `d[k] = v`: overwrite the first matching key in place (its position
is preserved), or append the new key at the end. -/
def dset {α : Type} : List (String × α) → String → α → List (String × α)
  | [], k, v => [(k, v)]
  | (k2, v2) :: rest, k, v =>
    if k2 = k then (k2, v) :: rest else (k2, v2) :: dset rest k v

/-- Python truthiness of a primitive (`None`, `0` and `""` are falsy). -/
def Prim.truthy : Prim → Bool
  | .pnone => false
  | .pint n => n ≠ 0
  | .pstr s => s ≠ ""

/-- Python truthiness of a date entry (empty list/dict are falsy). -/
def DayVal.truthy : DayVal → Bool
  | .listVal items => ¬ items.isEmpty
  | .primVal p => p.truthy
  | .dictVal d => ¬ d.isEmpty

/-- Python `str()` conversion used by the f-string report lines. -/
def primStr : Prim → String
  | .pnone => "None"
  | .pint n => toString n
  | .pstr s => s

/-- Truthiness of the `target_floor` argument (`None` and `""` are falsy). -/
def floorTruthy : Option String → Bool
  | none => false
  | some s => s ≠ ""

/-- Model of `str.upper()` over the ASCII range: upper-case each character.
(`String.toUpper` itself is not used because its implementation does not
reduce in the kernel.) -/
def pyUpper (s : String) : String := String.mk (s.data.map Char.toUpper)

/-- Replace every line-break character by a comma and a space. -/
def replaceNl : List Char → List Char
  | [] => []
  | c :: rest => if c = '\n' then ',' :: ' ' :: replaceNl rest else c :: replaceNl rest

/-- Model of `s.replace("\n", ", ")` on line 144: the pattern is a single
character, so replacement is a per-character rewrite. -/
def normalizeName (s : String) : String := String.mk (replaceNl s.data)

/-! ### The date parser: `datetime.strptime(date_str, "%Y-%m-%d")`

CPython compiles the format to the regex
`(?P<Y>\d\d\d\d)-(?P<m>1[0-2]|0[1-9]|[1-9])-(?P<d>3[0-1]|[1-2]\d|0[1-9]|[1-9]| [1-9])`,
requires the match to consume the whole input, and then validates the
calendar date through the `datetime` constructor (year 1..9999, day within
the month).  Alternatives are tried in the order written, with backtracking
into later month alternatives when the rest of the pattern fails. -/

/-- Numeric value of an ASCII digit character. -/
def digitVal (c : Char) : Nat := c.toNat - 48

/-- Match `\d\d\d\d` (the `%Y` field): exactly four digits. -/
def read4 : List Char → Option (Nat × List Char)
  | c1 :: c2 :: c3 :: c4 :: rest =>
    if c1.isDigit && c2.isDigit && c3.isDigit && c4.isDigit then
      some (1000 * digitVal c1 + 100 * digitVal c2 + 10 * digitVal c3 + digitVal c4, rest)
    else none
  | _ => none

/-- Match the literal `-` separator. -/
def dashDrop : List Char → Option (List Char)
  | '-' :: rest => some rest
  | _ => none

/-- Match the `%d` field `3[0-1]|[1-2]\d|0[1-9]|[1-9]| [1-9]`, first
alternative wins (nothing after it in the pattern can force backtracking). -/
def dayMatch : List Char → Option (Nat × List Char)
  | c1 :: c2 :: rest =>
    if c1 = '3' && (c2 = '0' || c2 = '1') then some (30 + digitVal c2, rest)
    else if (c1 = '1' || c1 = '2') && c2.isDigit then
      some (10 * digitVal c1 + digitVal c2, rest)
    else if c1 = '0' && ('1' ≤ c2 && c2 ≤ '9') then some (digitVal c2, rest)
    else if '1' ≤ c1 && c1 ≤ '9' then some (digitVal c1, c2 :: rest)
    else if c1 = ' ' && ('1' ≤ c2 && c2 ≤ '9') then some (digitVal c2, rest)
    else none
  | [c1] => if '1' ≤ c1 && c1 ≤ '9' then some (digitVal c1, []) else none
  | [] => none

/-- Match `(%m)-(%d)`: month alternatives `1[0-2]|0[1-9]|[1-9]` in priority
order, backtracking to the next alternative when the tail fails. -/
def monthDayTail (cs : List Char) : Option (Nat × Nat × List Char) :=
  let afterM : Nat → List Char → Option (Nat × Nat × List Char) := fun m rest =>
    match dashDrop rest with
    | some r2 =>
      match dayMatch r2 with
      | some (d, r3) => some (m, d, r3)
      | none => none
    | none => none
  let alt1 : Option (Nat × Nat × List Char) :=
    match cs with
    | '1' :: c2 :: rest =>
      if '0' ≤ c2 && c2 ≤ '2' then afterM (10 + digitVal c2) rest else none
    | _ => none
  let alt2 : Option (Nat × Nat × List Char) :=
    match cs with
    | '0' :: c2 :: rest =>
      if '1' ≤ c2 && c2 ≤ '9' then afterM (digitVal c2) rest else none
    | _ => none
  let alt3 : Option (Nat × Nat × List Char) :=
    match cs with
    | c1 :: rest => if '1' ≤ c1 && c1 ≤ '9' then afterM (digitVal c1) rest else none
    | [] => none
  (alt1.orElse fun _ => alt2).orElse fun _ => alt3

/-- Gregorian leap year, as in `calendar.isleap` / `datetime`. -/
def isLeap (y : Nat) : Bool :=
  (y % 4 == 0 && !(y % 100 == 0)) || y % 400 == 0

/-- Length of a month, as in `datetime._days_in_month`. -/
def daysInMonth (y m : Nat) : Nat :=
  if m = 2 then (if isLeap y then 29 else 28)
  else if m = 4 ∨ m = 6 ∨ m = 9 ∨ m = 11 then 30
  else 31

/-- Full model of `datetime.strptime(s, "%Y-%m-%d")`: `none` exactly when the
call raises `ValueError` (pattern mismatch, unconverted trailing data, or an
invalid calendar date rejected by the `datetime` constructor). -/
def strptimeYMD (s : String) : Option (Nat × Nat × Nat) :=
  match read4 s.data with
  | none => none
  | some (y, r1) =>
    match dashDrop r1 with
    | none => none
    | some r2 =>
      match monthDayTail r2 with
      | none => none
      | some (m, d, rest) =>
        if rest.isEmpty then
          if 1 ≤ y ∧ d ≤ daysInMonth y m then some (y, m, d) else none
        else none

/-- Days before month `m` in year `y`, as in `datetime._days_before_month`. -/
def daysBeforeMonth (y m : Nat) : Nat :=
  let base : Nat :=
    match m with
    | 1 => 0 | 2 => 31 | 3 => 59 | 4 => 90 | 5 => 120 | 6 => 151
    | 7 => 181 | 8 => 212 | 9 => 243 | 10 => 273 | 11 => 304 | _ => 334
  if 3 ≤ m ∧ isLeap y then base + 1 else base

/-- Proleptic Gregorian ordinal of a date, as in `datetime.toordinal`
(ordinal 1 is 0001-01-01). -/
def toOrdinal (y m d : Nat) : Nat :=
  365 * (y - 1) + (y - 1) / 4 - (y - 1) / 100 + (y - 1) / 400 + daysBeforeMonth y m + d

/-- Model of `date.weekday()`: Monday is 0. -/
def pyWeekday (y m d : Nat) : Nat := (toOrdinal y m d + 6) % 7

/-- The fixed weekday-name table of server.py line 114, indexed by
`date_obj.weekday()` (Monday first). -/
def dayNames : List String :=
  ["월요일", "화요일", "수요일", "목요일", "금요일", "토요일", "일요일"]

/-! ### The entry loop (server.py lines 133-145) -/

/-- One iteration of the `for meal in daily_data` loop, lines 133-145.
Returns the item as it is left in the feed (the retained branch mutates
`meal` in place through `meal["name"] = ...`) together with `none` when the
entry was skipped by the floor filter, or the floor key and the mutated
record that were appended to `meals_by_floor`.  A non-dict item raises
`AttributeError` at `meal.get("floor")`; a truthy non-string floor raises at
`meal_floor.upper()`; a present non-string name raises at `.replace`. -/
def stepMeal (target : Option String) : Item → Except PyErr (Item × Option (Prim × Meal))
  | .primItem _ => .error .attributeError
  | .mealItem m =>
    let mf : Prim := (dget m "floor").getD .pnone
    let skipDec : Except PyErr Bool :=
      if floorTruthy target && mf.truthy then
        match mf with
        | .pstr s => .ok (pyUpper (target.getD "") ≠ pyUpper s)
        | _ => .error .attributeError
      else .ok false
    match skipDec with
    | .error e => .error e
    | .ok true => .ok (.mealItem m, none)
    | .ok false =>
      match (dget m "name").getD (.pstr "N/A") with
      | .pstr s =>
        let m2 : Meal := dset m "name" (.pstr (normalizeName s))
        .ok (.mealItem m2, some (mf, m2))
      | _ => .error .attributeError

/-- Append a retained meal to its floor bucket in `meals_by_floor`,
creating the bucket at the end on first use (lines 140-145). -/
def addToGroup : List (Prim × List Meal) → Prim → Meal → List (Prim × List Meal)
  | [], k, m => [(k, [m])]
  | (k2, ms) :: rest, k, m =>
    if k2 = k then (k2, ms ++ [m]) :: rest
    else (k2, ms) :: addToGroup rest k m

/-- The whole `for meal in daily_data` loop: returns the entry list as it is
left in the feed after the in-place mutations, and the `meals_by_floor`
grouping, or the first exception raised. -/
def loopMeals (target : Option String) :
    List Item → List (Prim × List Meal) → Except PyErr (List Item × List (Prim × List Meal))
  | [], groups => .ok ([], groups)
  | it :: rest, groups =>
    match stepMeal target it with
    | .error e => .error e
    | .ok (it2, r) =>
      let groups2 :=
        match r with
        | none => groups
        | some (k, m2) => addToGroup groups k m2
      match loopMeals target rest groups2 with
      | .error e => .error e
      | .ok (rest2, g3) => .ok (it2 :: rest2, g3)

/-! ### `sorted(meals_by_floor.items())` (line 154) -/

/-- Comparability rank of a primitive used to state when CPython comparisons
raise `TypeError`. -/
def Prim.rank : Prim → Nat
  | .pnone => 0
  | .pint _ => 1
  | .pstr _ => 2

/-- Lexicographic code-point order on character lists: the Python `<=` on
strings. -/
def charsLe : List Char → List Char → Bool
  | [], _ => true
  | _ :: _, [] => false
  | a :: as, b :: bs =>
    if a < b then true else if b < a then false else charsLe as bs

/-- Python `<=` on strings: code-point lexicographic comparison. -/
def pyStrLe (a b : String) : Bool := charsLe a.data b.data

/-- Total Boolean order on keys: on two ints it is the Python `<=`, on two
strings it is the Python code-point lexicographic `<=`; across ranks it
orders by rank (that branch is only exercised on inputs where the model
returns `TypeError` and the sorted list is discarded). -/
def keyLe (a b : Prim) : Bool :=
  match a, b with
  | .pint x, .pint y => decide (x ≤ y)
  | .pstr x, .pstr y => pyStrLe x y
  | _, _ => decide (a.rank ≤ b.rank)

/-- Order on `meals_by_floor.items()` elements: compare the floor keys. -/
def relK (a b : Prim × List Meal) : Prop := keyLe a.1 b.1 = true

instance relK.decidable : DecidableRel relK := fun a b => by
  unfold relK; infer_instance

/-- Predicate for string keys. -/
def Prim.isStr : Prim → Bool
  | .pstr _ => true
  | _ => false

/-- Predicate for int keys. -/
def Prim.isInt : Prim → Bool
  | .pint _ => true
  | _ => false

/-- Model of `sorted(meals_by_floor.items())`.  The keys coming out of the
loop are pairwise distinct; CPython then sorts without error iff no
comparison between incomparable types is attempted, which for at least two
distinct keys means all keys are strings or all keys are ints (`None` only
ever occurs once, and `None < None` also raises `TypeError`). -/
def pySorted (groups : List (Prim × List Meal)) :
    Except PyErr (List (Prim × List Meal)) :=
  let ks := groups.map Prod.fst
  if groups.length ≤ 1 || (ks.all Prim.isStr || ks.all Prim.isInt) then
    .ok (List.insertionSort relK groups)
  else .error .typeError

/-! ### Report rendering (lines 147-163) -/

/-- A single-quote character, to keep the message literals faithful. -/
def sq : String := (Char.ofNat 39).toString

/-- The 40-character `=` separator (lines 152 and 162). -/
def sep40 : String := String.mk (List.replicate 40 '=')

/-- The 20-character `-` separator (line 160). -/
def sep20 : String := String.mk (List.replicate 20 '-')

/-- One report line per entry, line 159: `"  - <type>: <name>"`. -/
def mealLine (m : Meal) : String :=
  "  - " ++ primStr ((dget m "type").getD (.pstr "N/A")) ++ ": "
    ++ primStr ((dget m "name").getD (.pstr "N/A")) ++ "\n"

/-- One floor section, lines 155-160. -/
def floorSection (g : Prim × List Meal) : String :=
  "📍 " ++ primStr g.1 ++ "\n" ++ String.join (g.2.map mealLine) ++ sep20 ++ "\n"

/-- The `floor_info` header fragment of line 150. -/
def floorInfo (target : Option String) : String :=
  if floorTruthy target then target.getD "" ++ " " else ""

/-- The full success report, lines 150-163. -/
def renderReport (dateStr dayName : String) (target : Option String)
    (gs : List (Prim × List Meal)) : String :=
  "📅 " ++ dateStr ++ " (" ++ dayName ++ ") - 서울 캠퍼스 " ++ floorInfo target
    ++ "식단 메뉴 📋\n" ++ sep40 ++ "\n"
    ++ String.join (gs.map floorSection) ++ sep40

/-! ### Error strings -/

/-- Line 102: the empty-feed error under the latest-date marker. -/
def noDataMsg : String := "Error: 데이터 소스에서 식단 정보를 찾을 수 없습니다."

/-- Line 117: the invalid-date error; note it echoes `args.date`, the
argument as supplied, not the resolved date. -/
def invalidDateMsg (dateArg : String) : String :=
  "Error: LLM이 잘못된 날짜 형식으로 도구를 호출했습니다: " ++ sq ++ dateArg ++ sq
    ++ ". YYYY-MM-DD 형식이 필요합니다."

/-- Line 121: the missing-date error. -/
def dateNotFoundMsg (d : String) : String :=
  "Error: 해당 날짜(" ++ d ++ ")의 식단 데이터가 없습니다."

/-- Line 131: the malformed-feed error. -/
def malformedMsg (d : String) : String :=
  "Error: 데이터 구조 오류. " ++ d ++ "의 데이터가 리스트 형태가 아닙니다."

/-- Line 148: the every-entry-filtered-out message. -/
def noMatchMsg (d : String) (target : Option String) : String :=
  d ++ "에 " ++ (if floorTruthy target then target.getD "" ++ "의 " else "")
    ++ "메뉴 정보가 없습니다."

/-! ### The tool function -/

/-- The pydantic validator `handle_date_input` (lines 56-70): blank input
becomes the latest-date marker, everything else passes through unchanged. -/
def handle_date_input (v : Option String) : String :=
  match v with
  | none => "USE_LATEST_DATE"
  | some s => if s.trim.toLower = "" then "USE_LATEST_DATE" else s

/-- Date resolution, lines 100-109: the marker resolves to the first feed key
in insertion order, `none` when the feed is empty. -/
def resolveDate (data : Feed) (dateArg : String) : Option String :=
  if dateArg = "USE_LATEST_DATE" then
    match data with
    | [] => none
    | (k, _) :: _ => some k
  else some dateArg

/-- Wrap a returned string together with the feed state after the call. -/
def retStr (s : String) (d : Feed) : Except PyErr (DayVal × Feed) :=
  .ok (.primVal (.pstr s), d)

/-- The tool function `get_meal_menu` (server.py lines 89-163), with the feed
passed explicitly (the Python code fetches it first thing) and the date
argument taken after the pydantic validator.  The result pairs the returned
value with the feed as left after the call, making the in-place mutation of
entry records on line 144 observable; exceptions surface as `Except.error`. -/
def get_meal_menu (data : Feed) (dateArg : String) (target : Option String) :
    Except PyErr (DayVal × Feed) :=
  match dget data "error" with
  | some v => .ok (v, data)
  | none =>
    match resolveDate data dateArg with
    | none => retStr noDataMsg data
    | some dateStr =>
      match strptimeYMD dateStr with
      | none => retStr (invalidDateMsg dateArg) data
      | some (y, mo, d) =>
        let dayName := dayNames.getD (pyWeekday y mo d) ""
        match dget data dateStr with
        | none => retStr (dateNotFoundMsg dateStr) data
        | some dv =>
          if dv.truthy = false then retStr (dateNotFoundMsg dateStr) data
          else
            match dv with
            | .listVal items =>
              match loopMeals target items [] with
              | .error e => .error e
              | .ok (items2, groups) =>
                let data2 := dset data dateStr (.listVal items2)
                if groups.isEmpty then retStr (noMatchMsg dateStr target) data2
                else
                  match pySorted groups with
                  | .error e => .error e
                  | .ok gs => retStr (renderReport dateStr dayName target gs) data2
            | _ => retStr (malformedMsg dateStr) data

/-! ### Predicates and helpers used by the statements -/

/-- The floor filter's skip condition as the spec reads once the truthiness
guard of line 137 is made explicit: the entry is a record whose floor is a
non-empty string differing case-insensitively from the filter. -/
def skippedEntry (t : String) : Item → Bool
  | .mealItem m =>
    match dget m "floor" with
    | some (.pstr s) => s ≠ "" && pyUpper s ≠ pyUpper t
    | _ => false
  | .primItem _ => false

/-- An entry list element conforming to the spec's MealEntry data model as far
as the code touches it: a record whose `floor` is a string and whose `name`,
when present, is a string. -/
def wellFormedItem : Item → Bool
  | .mealItem m =>
    (match dget m "floor" with
     | some (.pstr _) => true
     | _ => false) &&
    (match dget m "name" with
     | some (.pstr _) => true
     | none => true
     | _ => false)
  | .primItem _ => false

/-- A feed whose date entries conform to the MealEntry data model, and whose
`error` value (when present) is a string. -/
def wellFormedFeed (data : Feed) : Bool :=
  (match dget data "error" with
   | some (.primVal (.pstr _)) => true
   | none => true
   | _ => false) &&
  data.all fun kv =>
    match kv.2 with
    | .listVal items => items.all wellFormedItem
    | _ => true

/-- Successor of a calendar date. -/
def nextDate (y m d : Nat) : Nat × Nat × Nat :=
  if d < daysInMonth y m then (y, m, d + 1)
  else if m < 12 then (y, m + 1, 1) else (y + 1, 1, 1)

/-- Bucket of a floor key in `meals_by_floor` (empty when absent; buckets are
never created empty by the loop). -/
def gLookup : List (Prim × List Meal) → Prim → List Meal
  | [], _ => []
  | (k2, ms) :: rest, k => if k2 = k then ms else gLookup rest k

/-- Keys of the grouping, in insertion order. -/
def keysOf (g : List (Prim × List Meal)) : List Prim := g.map Prod.fst

/-- What one entry contributes to the bucket of floor key `k`: the mutated
record when the entry is retained with that exact floor key, `none` when it
is skipped, errors, or lands in another bucket. -/
def retainedAs (t : Option String) (k : Prim) (it : Item) : Option Meal :=
  match stepMeal t it with
  | .ok (_, some (k2, m2)) => if k2 = k then some m2 else none
  | _ => none

/-- Scenario feed of spec section 8: two floors on 2025-10-23, the first dish
name containing an embedded line break. -/
def feedRice : Feed :=
  [("2025-10-23", .listVal
    [ .mealItem [("floor", .pstr "10F"), ("type", .pstr "중식"), ("name", .pstr "Rice\nSoup")],
      .mealItem [("floor", .pstr "20F"), ("type", .pstr "중식"), ("name", .pstr "Noodles")]])]

/-- One-entry variant of the scenario feed. -/
def feedOneRice : Feed :=
  [("2025-10-23", .listVal
    [ .mealItem [("floor", .pstr "10F"), ("type", .pstr "중식"), ("name", .pstr "Rice\nSoup")]])]

/-- A feed whose single entry has no `floor` field. -/
def feedNoFloor : Feed :=
  [("2025-10-23", .listVal
    [ .mealItem [("type", .pstr "중식"), ("name", .pstr "Noodles")]])]

/-- The entry list of `feedRice`. -/
def itemsRice : List Item :=
  [ .mealItem [("floor", .pstr "10F"), ("type", .pstr "중식"), ("name", .pstr "Rice\nSoup")],
    .mealItem [("floor", .pstr "20F"), ("type", .pstr "중식"), ("name", .pstr "Noodles")]]

/-- The entry list of `feedRice` after the loop's in-place normalization. -/
def itemsRice2 : List Item :=
  [ .mealItem [("floor", .pstr "10F"), ("type", .pstr "중식"), ("name", .pstr "Rice, Soup")],
    .mealItem [("floor", .pstr "20F"), ("type", .pstr "중식"), ("name", .pstr "Noodles")]]

/-- The grouping the loop builds from `itemsRice` with no floor filter. -/
def groupsRice : List (Prim × List Meal) :=
  [ (.pstr "10F", [[("floor", .pstr "10F"), ("type", .pstr "중식"), ("name", .pstr "Rice, Soup")]]),
    (.pstr "20F", [[("floor", .pstr "20F"), ("type", .pstr "중식"), ("name", .pstr "Noodles")]])]

/-! ## Helper lemmas -/

theorem resolveDate_not_marker {data : Feed} {dateArg : String}
    (h : dateArg ≠ "USE_LATEST_DATE") : resolveDate data dateArg = some dateArg := by
  simp [resolveDate, h]

theorem resolveDate_self_key (k : String) (v : DayVal) (rest : Feed) :
    resolveDate ((k, v) :: rest) k = some k := by
  unfold resolveDate
  split <;> rfl

/-! ## Claims -/

/-- C10: whenever the feed carries a top-level `error` key, `get_meal_menu`
returns the stored value immediately, for every date and floor argument,
without touching the rest of the feed (which is returned unchanged). -/
theorem error_key_short_circuit (data : Feed) (dateArg : String) (target : Option String)
    (v : DayVal) (h : dget data "error" = some v) :
    get_meal_menu data dateArg target = .ok (v, data) := by
  unfold get_meal_menu
  rw [h]

theorem error_key_short_circuit_witness :
    get_meal_menu
        [("error", DayVal.primVal (Prim.pstr "boom")),
         ("2025-10-23", DayVal.listVal [Item.mealItem
            [("floor", Prim.pstr "10F"), ("type", Prim.pstr "중식"), ("name", Prim.pstr "Rice")]])]
        "2025-10-23" (some "10F") =
      .ok (DayVal.primVal (Prim.pstr "boom"),
        [("error", DayVal.primVal (Prim.pstr "boom")),
         ("2025-10-23", DayVal.listVal [Item.mealItem
            [("floor", Prim.pstr "10F"), ("type", Prim.pstr "중식"), ("name", Prim.pstr "Rice")]])]) :=
  error_key_short_circuit _ "2025-10-23" (some "10F") _ rfl

/-- C7: a supplied date that is not the latest-date marker and does not parse
as a real `YYYY-MM-DD` calendar date always produces the invalid-date error
string, which contains the literal original input. -/
theorem invalid_date_error_echoes_input (data : Feed) (dateArg : String)
    (target : Option String) (herr : dget data "error" = none)
    (hm : dateArg ≠ "USE_LATEST_DATE") (hp : strptimeYMD dateArg = none) :
    get_meal_menu data dateArg target = retStr (invalidDateMsg dateArg) data ∧
    ∃ a b, invalidDateMsg dateArg = a ++ dateArg ++ b := by
  constructor
  · simp only [get_meal_menu, herr, resolveDate_not_marker hm, hp]
  · exact ⟨"Error: LLM이 잘못된 날짜 형식으로 도구를 호출했습니다: " ++ sq,
      sq ++ ". YYYY-MM-DD 형식이 필요합니다.",
      by simp [invalidDateMsg, String.append_assoc]⟩

theorem invalid_date_error_echoes_input_witness :
    get_meal_menu feedRice "2025-13-40" none = retStr (invalidDateMsg "2025-13-40") feedRice ∧
    ∃ a b, invalidDateMsg "2025-13-40" = a ++ "2025-13-40" ++ b :=
  invalid_date_error_echoes_input feedRice "2025-13-40" none rfl (by decide) rfl

/-- C5: the latest-date marker resolves to the feed's first key in insertion
order; when that key is a valid date the whole call behaves exactly as if that
key had been supplied; on the empty feed the call fails with the no-data
error string. -/
theorem latest_marker_resolution :
    (∀ (k : String) (v : DayVal) (rest : Feed),
        resolveDate ((k, v) :: rest) "USE_LATEST_DATE" = some k) ∧
    (∀ (k : String) (v : DayVal) (rest : Feed) (target : Option String) (y mo d : Nat),
        dget ((k, v) :: rest) "error" = none →
        strptimeYMD k = some (y, mo, d) →
        get_meal_menu ((k, v) :: rest) "USE_LATEST_DATE" target =
          get_meal_menu ((k, v) :: rest) k target) ∧
    (∀ target : Option String,
        get_meal_menu ([] : Feed) "USE_LATEST_DATE" target = retStr noDataMsg []) := by
  refine ⟨fun k v rest => rfl, ?_, fun target => rfl⟩
  intro k v rest target y mo d herr hk
  have h1 : resolveDate ((k, v) :: rest) "USE_LATEST_DATE" = some k := rfl
  simp only [get_meal_menu, herr, h1, resolveDate_self_key, hk]

theorem latest_marker_resolution_witness :
    get_meal_menu feedRice "USE_LATEST_DATE" none = get_meal_menu feedRice "2025-10-23" none :=
  latest_marker_resolution.2.1 "2025-10-23" _ [] none 2025 10 23 rfl rfl

/-- C1 (code bug): the claim and spec sections 3 and 5 require the feed to be
left unchanged, but line 144 assigns the normalized name back into the entry
record in place, so on the failing input the feed after the call differs from
the feed before it: the retained entry's name has become "Rice, Soup". -/
theorem feed_mutation_code_bug :
    (get_meal_menu feedOneRice "2025-10-23" none).toOption.map Prod.snd =
      some [("2025-10-23", DayVal.listVal [Item.mealItem
        [("floor", Prim.pstr "10F"), ("type", Prim.pstr "중식"),
         ("name", Prim.pstr "Rice, Soup")]])] ∧
    (get_meal_menu feedOneRice "2025-10-23" none).toOption.map Prod.snd ≠ some feedOneRice := by
  constructor
  · rfl
  · decide

/-- C6 (counterexample): a date key present with the falsy non-list value `0`
is neither absent nor an empty entry list, and `0` is not a sequence of
records, yet the code reports `DateNotFound`, not `MalformedFeed`. -/
theorem falsy_nonlist_gives_date_not_found :
    get_meal_menu [("2025-10-23", DayVal.primVal (Prim.pint 0))] "2025-10-23" none =
      retStr (dateNotFoundMsg "2025-10-23") [("2025-10-23", DayVal.primVal (Prim.pint 0))] ∧
    dateNotFoundMsg "2025-10-23" ≠ malformedMsg "2025-10-23" := by
  constructor
  · rfl
  · decide

/-- C6 (amended): for a valid non-marker date, an absent or falsy value under
the date key (missing key, empty list, or any other falsy value) yields the
`DateNotFound` error whose message embeds the date, while a truthy value that
is not a list yields the `MalformedFeed` error. -/
theorem date_lookup_error_classification (data : Feed) (dateArg : String)
    (target : Option String) (y mo d : Nat)
    (herr : dget data "error" = none) (hm : dateArg ≠ "USE_LATEST_DATE")
    (hp : strptimeYMD dateArg = some (y, mo, d)) :
    (dget data dateArg = none →
      get_meal_menu data dateArg target = retStr (dateNotFoundMsg dateArg) data) ∧
    (∀ dv, dget data dateArg = some dv → dv.truthy = false →
      get_meal_menu data dateArg target = retStr (dateNotFoundMsg dateArg) data) ∧
    (∀ dv, dget data dateArg = some dv → dv.truthy = true →
      (∀ items, dv ≠ DayVal.listVal items) →
      get_meal_menu data dateArg target = retStr (malformedMsg dateArg) data) ∧
    (∃ a b, dateNotFoundMsg dateArg = a ++ dateArg ++ b) := by
  refine ⟨?_, ?_, ?_, "Error: 해당 날짜(", ")의 식단 데이터가 없습니다.", rfl⟩
  · intro hd
    simp only [get_meal_menu, herr, resolveDate_not_marker hm, hp, hd]
  · intro dv hd htr
    simp only [get_meal_menu, herr, resolveDate_not_marker hm, hp, hd]
    rw [htr]
    rfl
  · intro dv hd htr hnl
    simp only [get_meal_menu, herr, resolveDate_not_marker hm, hp, hd]
    rw [htr]
    rcases dv with items | p | d2
    · exact absurd rfl (hnl items)
    · rfl
    · rfl

theorem date_lookup_error_classification_witness :
    get_meal_menu [("2025-10-23", DayVal.dictVal [("x", Prim.pstr "y")])] "2025-10-23" none =
      retStr (malformedMsg "2025-10-23") [("2025-10-23", DayVal.dictVal [("x", Prim.pstr "y")])] :=
  (date_lookup_error_classification [("2025-10-23", DayVal.dictVal [("x", Prim.pstr "y")])]
    "2025-10-23" none 2025 10 23 rfl (by decide)
    rfl).2.2.1 _ rfl rfl (fun items h => DayVal.noConfusion h)

/-- C2 (counterexample): an entry that is not a record at all makes line 134
(`meal.get("floor")`) raise `AttributeError`, so `get_meal_menu` does not
return a string on every feed. -/
theorem raises_on_non_record_entry :
    get_meal_menu [("2025-10-23", DayVal.listVal [Item.primItem (Prim.pstr "oops")])]
        "2025-10-23" none = Except.error PyErr.attributeError := rfl

/-- C3 (counterexample): with floor filter `"10F"` set, the entry without a
`floor` field has a floor (absent / `None`) that does not equal the filter in
any reading, yet it is not skipped: the success report lists it under the
`None` section instead of the all-filtered-out outcome. -/
theorem missing_floor_entry_not_skipped :
    get_meal_menu feedNoFloor "2025-10-23" (some "10F") =
      retStr ("📅 2025-10-23 (목요일) - 서울 캠퍼스 10F 식단 메뉴 📋\n========================================\n📍 None\n  - 중식: Noodles\n--------------------\n========================================")
        feedNoFloor ∧
    "📅 2025-10-23 (목요일) - 서울 캠퍼스 10F 식단 메뉴 📋\n========================================\n📍 None\n  - 중식: Noodles\n--------------------\n========================================"
      ≠ noMatchMsg "2025-10-23" (some "10F") := by
  constructor
  · rfl
  · decide

/-- C3 (amended): with the floor filter set to a string `t`, an entry is
skipped by the loop if and only if the filter is non-empty and the entry is a
record whose floor is a non-empty string differing from the filter after
ASCII upper-casing; entries with a missing, empty or otherwise falsy floor
are always retained.  In particular filter `"10f"` retains floor `"10F"`. -/
theorem skip_iff_truthy_floor_mismatch (t : String) (it : Item) :
    stepMeal (some t) it = .ok (it, none) ↔
      (t ≠ "" ∧ ∃ m s, it = Item.mealItem m ∧ dget m "floor" = some (Prim.pstr s) ∧
        s ≠ "" ∧ pyUpper s ≠ pyUpper t) := by
  cases it with
  | primItem p => simp [stepMeal]
  | mealItem m =>
    by_cases ht : t = ""
    · subst ht
      cases hn : (dget m "name").getD (Prim.pstr "N/A") <;>
        simp [stepMeal, floorTruthy, hn]
    · cases hf : dget m "floor" with
      | none =>
        cases hn : (dget m "name").getD (Prim.pstr "N/A") <;>
          simp [stepMeal, floorTruthy, Prim.truthy, hf, hn, ht]
      | some p =>
        cases p with
        | pnone =>
          cases hn : (dget m "name").getD (Prim.pstr "N/A") <;>
            simp [stepMeal, floorTruthy, Prim.truthy, hf, hn, ht]
        | pint n =>
          by_cases hz : n = 0
          · subst hz
            cases hn : (dget m "name").getD (Prim.pstr "N/A") <;>
              simp [stepMeal, floorTruthy, Prim.truthy, hf, hn, ht]
          · simp [stepMeal, floorTruthy, Prim.truthy, hf, ht, hz]
        | pstr s =>
          by_cases hs : s = ""
          · subst hs
            cases hn : (dget m "name").getD (Prim.pstr "N/A") <;>
              simp [stepMeal, floorTruthy, Prim.truthy, hf, hn, ht]
          · by_cases hu : pyUpper s = pyUpper t
            · have hu2 : ¬ (pyUpper t ≠ pyUpper s) := by simp [hu]
              cases hn : (dget m "name").getD (Prim.pstr "N/A") <;>
                simp [stepMeal, floorTruthy, Prim.truthy, hf, hn, ht, hs, hu, hu2]
            · have hu2 : pyUpper t ≠ pyUpper s := fun h => hu h.symm
              simp [stepMeal, floorTruthy, Prim.truthy, hf, ht, hs, hu, hu2]

/-! helper lemmas for the all-entries-filtered-out path -/

theorem read4_head {cs : List Char} {p : Nat × List Char} (h : read4 cs = some p) :
    ∃ c rest, cs = c :: rest ∧ c.isDigit = true := by
  match cs with
  | [] => simp [read4] at h
  | [c1] => simp [read4] at h
  | [c1, c2] => simp [read4] at h
  | [c1, c2, c3] => simp [read4] at h
  | c1 :: c2 :: c3 :: c4 :: rest =>
    refine ⟨c1, c2 :: c3 :: c4 :: rest, rfl, ?_⟩
    by_contra hd
    simp [read4, hd] at h

theorem strptime_head_digit {s : String} {v : Nat × Nat × Nat}
    (h : strptimeYMD s = some v) : ∃ c rest, s.data = c :: rest ∧ c.isDigit = true := by
  cases hr : read4 s.data with
  | none => unfold strptimeYMD at h; rw [hr] at h; exact absurd h (by simp)
  | some p => exact read4_head hr

theorem stepMeal_skipped {t : String} {it : Item} (ht : t ≠ "")
    (h : skippedEntry t it = true) : stepMeal (some t) it = .ok (it, none) := by
  cases it with
  | primItem p => simp [skippedEntry] at h
  | mealItem m =>
    simp only [skippedEntry] at h
    cases hf : dget m "floor" with
    | none => rw [hf] at h; simp at h
    | some p =>
      cases p with
      | pnone => rw [hf] at h; simp at h
      | pint n => rw [hf] at h; simp at h
      | pstr s =>
        rw [hf] at h
        simp only [Bool.and_eq_true, ne_eq, decide_not, Bool.not_eq_eq_eq_not,
          Bool.not_true, decide_eq_false_iff_not] at h
        have hu2 : pyUpper t ≠ pyUpper s := fun he => h.2 he.symm
        simp [stepMeal, floorTruthy, Prim.truthy, hf, ht, h.1, hu2]

theorem loopMeals_all_skipped {t : String} (ht : t ≠ "") :
    ∀ (items : List Item) (groups : List (Prim × List Meal)),
      (∀ it ∈ items, skippedEntry t it = true) →
      loopMeals (some t) items groups = .ok (items, groups) := by
  intro items
  induction items with
  | nil => intro groups _; rfl
  | cons it rest ih =>
    intro groups h
    have h1 := stepMeal_skipped ht (h it (List.mem_cons_self it rest))
    have h2 := ih groups (fun x hx => h x (List.mem_cons_of_mem it hx))
    simp [loopMeals, h1, h2]

theorem dset_same {α : Type} :
    ∀ (d : List (String × α)) (k : String) (v : α), dget d k = some v → dset d k v = d := by
  intro d
  induction d with
  | nil => intro k v h; simp [dget] at h
  | cons kv rest ih =>
    intro k v h
    obtain ⟨k2, v2⟩ := kv
    by_cases he : k2 = k
    · subst he
      simp [dget] at h
      simp [dset, h]
    · simp [dget, he] at h
      simp [dset, he, ih k v h]

/-- C4: when the resolved date has a non-empty entry list but the floor
filter skips every entry, the call returns the no-matching-entries string;
that string differs from the date-not-found string for the same date, and its
first character (a digit of the parsed date) differs from the first character
of every success report (the calendar emoji), the same way every other error
string starts with a character no success report starts with. -/
theorem no_matching_entries_distinct_error (data : Feed) (dateArg t : String)
    (y mo d : Nat) (items : List Item)
    (herr : dget data "error" = none) (hm : dateArg ≠ "USE_LATEST_DATE")
    (hp : strptimeYMD dateArg = some (y, mo, d))
    (hd : dget data dateArg = some (DayVal.listVal items)) (hne : items ≠ [])
    (ht : t ≠ "") (hsk : ∀ it ∈ items, skippedEntry t it = true) :
    get_meal_menu data dateArg (some t) = retStr (noMatchMsg dateArg (some t)) data ∧
    noMatchMsg dateArg (some t) ≠ dateNotFoundMsg dateArg ∧
    (∀ ds dn tg gs, (noMatchMsg dateArg (some t)).data.head? ≠
      (renderReport ds dn tg gs).data.head?) := by
  obtain ⟨c, cs, hdata, hdig⟩ := strptime_head_digit hp
  obtain ⟨L1, hnm⟩ : ∃ L, (noMatchMsg dateArg (some t)).data = c :: L := by
    unfold noMatchMsg
    simp only [String.data_append, hdata, List.cons_append, List.append_assoc]
    exact ⟨_, rfl⟩
  refine ⟨?_, ?_, ?_⟩
  · simp only [get_meal_menu, herr, resolveDate_not_marker hm, hp, hd]
    have htr : (DayVal.listVal items).truthy = true := by
      simp [DayVal.truthy, hne]
    rw [htr]
    rw [loopMeals_all_skipped ht items [] hsk]
    show retStr (noMatchMsg dateArg (some t)) (dset data dateArg (DayVal.listVal items)) =
      retStr (noMatchMsg dateArg (some t)) data
    rw [dset_same data dateArg (DayVal.listVal items) hd]
  · intro h
    obtain ⟨L2, hE⟩ : ∃ L, (dateNotFoundMsg dateArg).data = 'E' :: L := by
      unfold dateNotFoundMsg
      simp only [String.data_append, List.append_assoc]
      exact ⟨_, rfl⟩
    have h2 := congrArg String.data h
    rw [hnm, hE] at h2
    injection h2 with hc _
    rw [hc] at hdig
    exact absurd hdig (by decide)
  · intro ds dn tg gs h
    obtain ⟨L3, h3⟩ : ∃ L, (renderReport ds dn tg gs).data = '📅' :: L := by
      unfold renderReport
      simp only [String.data_append, List.append_assoc]
      exact ⟨_, rfl⟩
    rw [hnm, h3] at h
    simp only [List.head?_cons, Option.some.injEq] at h
    rw [h] at hdig
    exact absurd hdig (by decide)

theorem no_matching_entries_distinct_error_witness :
    get_meal_menu feedRice "2025-10-23" (some "30F") =
      retStr (noMatchMsg "2025-10-23" (some "30F")) feedRice ∧
    noMatchMsg "2025-10-23" (some "30F") ≠ dateNotFoundMsg "2025-10-23" ∧
    (noMatchMsg "2025-10-23" (some "30F")).data.head? ≠
      (renderReport "2025-10-23" "목요일" none []).data.head? := by
  have h := no_matching_entries_distinct_error feedRice "2025-10-23" "30F" 2025 10 23
    [Item.mealItem [("floor", Prim.pstr "10F"), ("type", Prim.pstr "중식"),
        ("name", Prim.pstr "Rice\nSoup")],
     Item.mealItem [("floor", Prim.pstr "20F"), ("type", Prim.pstr "중식"),
        ("name", Prim.pstr "Noodles")]]
    rfl (by decide) rfl rfl (by decide) (by decide) (by decide)
  exact ⟨h.1, h.2.1, h.2.2 "2025-10-23" "목요일" none []⟩

/-! helper lemmas for the weekday computation -/

theorem daysBeforeMonth_succ (y : Nat) {m : Nat} (h1 : 1 ≤ m) (h2 : m ≤ 11) :
    daysBeforeMonth y (m + 1) = daysBeforeMonth y m + daysInMonth y m := by
  interval_cases m <;> cases hL : isLeap y <;>
    simp [daysBeforeMonth, daysInMonth, hL]

set_option maxHeartbeats 2000000 in
theorem toOrdinal_year_step {y : Nat} (hy : 1 ≤ y) :
    toOrdinal (y + 1) 1 1 = toOrdinal y 12 31 + 1 := by
  have hleap : isLeap y = true ↔ ((y % 4 = 0 ∧ ¬ y % 100 = 0) ∨ y % 400 = 0) := by
    simp [isLeap]
  have hb1 : daysBeforeMonth (y + 1) 1 = 0 := rfl
  have hb12 : daysBeforeMonth y 12 = 334 + (if isLeap y = true then 1 else 0) := by
    by_cases h : isLeap y = true <;> simp [daysBeforeMonth, h]
  unfold toOrdinal
  rw [hb1, hb12]
  simp only [Nat.add_sub_cancel]
  cases hL : isLeap y
  · rw [hL] at hleap
    simp only [Bool.false_eq_true, false_iff, not_or, not_and, not_not] at hleap
    simp only [Bool.false_eq_true, if_false]
    omega
  · rw [hL] at hleap
    simp only [true_iff] at hleap
    simp only [if_true]
    omega

theorem toOrdinal_next (y m d : Nat) (hy : 1 ≤ y) (hm1 : 1 ≤ m) (hm2 : m ≤ 12)
    (hd1 : 1 ≤ d) (hd2 : d ≤ daysInMonth y m) :
    toOrdinal (nextDate y m d).1 (nextDate y m d).2.1 (nextDate y m d).2.2 =
      toOrdinal y m d + 1 := by
  unfold nextDate
  by_cases hlt : d < daysInMonth y m
  · simp only [hlt, if_true]
    unfold toOrdinal
    omega
  · have hde : d = daysInMonth y m := by omega
    by_cases hm : m < 12
    · simp only [hlt, hm, if_true, if_false]
      unfold toOrdinal
      rw [daysBeforeMonth_succ y hm1 (by omega)]
      omega
    · have hm12 : m = 12 := by omega
      subst hm12
      simp only [hlt, hm, if_false]
      have hd31 : d = 31 := by
        simp [daysInMonth] at hde
        exact hde
      subst hd31
      exact toOrdinal_year_step hy

/-- C8: the weekday in the report comes from the fixed seven-name table of
line 114 indexed by `pyWeekday` with Monday = 0, and `pyWeekday` is the
standard Gregorian weekday: 0001-01-01 (proleptic Gregorian Monday) maps to
0 and stepping one calendar day always advances the weekday by one mod 7; in
particular 2025-10-23 maps to 3 (Thursday), and the Scenario E call renders a
header with 2025-10-23 and 목요일 (Thursday). -/
theorem weekday_gregorian_correct :
    pyWeekday 1 1 1 = 0 ∧
    dayNames = ["월요일", "화요일", "수요일", "목요일", "금요일", "토요일", "일요일"] ∧
    (∀ y m d : Nat, 1 ≤ y → 1 ≤ m → m ≤ 12 → 1 ≤ d → d ≤ daysInMonth y m →
      pyWeekday (nextDate y m d).1 (nextDate y m d).2.1 (nextDate y m d).2.2 =
        (pyWeekday y m d + 1) % 7) ∧
    pyWeekday 2025 10 23 = 3 ∧
    dayNames.getD 3 "" = "목요일" ∧
    get_meal_menu feedRice "USE_LATEST_DATE" none =
      retStr "📅 2025-10-23 (목요일) - 서울 캠퍼스 식단 메뉴 📋\n========================================\n📍 10F\n  - 중식: Rice, Soup\n--------------------\n📍 20F\n  - 중식: Noodles\n--------------------\n========================================"
        [("2025-10-23", .listVal
          [ .mealItem [("floor", .pstr "10F"), ("type", .pstr "중식"),
              ("name", .pstr "Rice, Soup")],
            .mealItem [("floor", .pstr "20F"), ("type", .pstr "중식"),
              ("name", .pstr "Noodles")]])] := by
  refine ⟨rfl, rfl, ?_, by decide, rfl, ?_⟩
  · intro y m d hy hm1 hm2 hd1 hd2
    unfold pyWeekday
    rw [toOrdinal_next y m d hy hm1 hm2 hd1 hd2]
    omega
  · rfl

theorem weekday_gregorian_correct_witness :
    pyWeekday (nextDate 2024 2 29).1 (nextDate 2024 2 29).2.1 (nextDate 2024 2 29).2.2 =
      (pyWeekday 2024 2 29 + 1) % 7 :=
  weekday_gregorian_correct.2.2.1 2024 2 29 (by decide) (by decide) (by decide)
    (by decide) (by decide)

/-! helper lemmas for totality on well-formed feeds -/

theorem dget_mem {α : Type} :
    ∀ {d : List (String × α)} {k : String} {v : α}, dget d k = some v → (k, v) ∈ d := by
  intro d
  induction d with
  | nil => intro k v h; simp [dget] at h
  | cons kv rest ih =>
    intro k v h
    obtain ⟨k2, v2⟩ := kv
    by_cases he : k2 = k
    · subst he
      simp [dget] at h
      subst h
      exact List.mem_cons_self _ _
    · simp [dget, he] at h
      exact List.mem_cons_of_mem _ (ih h)

theorem addToGroup_keys (P : Prim → Prop) :
    ∀ {g0 : List (Prim × List Meal)} {k : Prim} {m : Meal},
      (∀ g ∈ g0, P g.1) → P k → ∀ g ∈ addToGroup g0 k m, P g.1 := by
  intro g0
  induction g0 with
  | nil =>
    intro k m _ hk g hg
    simp [addToGroup] at hg
    rw [hg]
    exact hk
  | cons g1 rest ih =>
    intro k m hall hk g hg
    obtain ⟨k2, ms⟩ := g1
    by_cases he : k2 = k
    · subst he
      simp only [addToGroup, if_pos rfl] at hg
      rcases List.mem_cons.mp hg with h | h
      · rw [h]; exact hall (k2, ms) (List.mem_cons_self _ _)
      · exact hall g (List.mem_cons_of_mem _ h)
    · simp only [addToGroup, if_neg he] at hg
      rcases List.mem_cons.mp hg with h | h
      · rw [h]; exact hall (k2, ms) (List.mem_cons_self _ _)
      · exact ih (fun x hx => hall x (List.mem_cons_of_mem _ hx)) hk g h

theorem stepMeal_wf (target : Option String) {m : Meal}
    (hwf : wellFormedItem (.mealItem m) = true) :
    ∃ it2 r, stepMeal target (.mealItem m) = .ok (it2, r) ∧
      ∀ k m2, r = some (k, m2) → k.isStr = true := by
  simp only [wellFormedItem, Bool.and_eq_true] at hwf
  obtain ⟨h1, h2⟩ := hwf
  cases hf : dget m "floor" with
  | none => rw [hf] at h1; simp at h1
  | some p =>
    rw [hf] at h1
    cases p with
    | pnone => simp at h1
    | pint n => simp at h1
    | pstr s =>
      have hname : ∃ s2, (dget m "name").getD (Prim.pstr "N/A") = Prim.pstr s2 := by
        cases hn : dget m "name" with
        | none => exact ⟨"N/A", rfl⟩
        | some q =>
          rw [hn] at h2
          cases q with
          | pnone => simp at h2
          | pint n => simp at h2
          | pstr s2 => exact ⟨s2, rfl⟩
      obtain ⟨s2, hs2⟩ := hname
      by_cases hc : (floorTruthy target && (Prim.pstr s).truthy) = true
      · by_cases hskip : pyUpper (target.getD "") ≠ pyUpper s
        · refine ⟨.mealItem m, none, ?_, by simp⟩
          simp [stepMeal, hf, hc, hskip]
        · refine ⟨.mealItem (dset m "name" (.pstr (normalizeName s2))),
            some (.pstr s, dset m "name" (.pstr (normalizeName s2))), ?_, ?_⟩
          · simp [stepMeal, hf, hc, hskip, hs2]
          · intro k m2 hr
            cases hr
            rfl
      · refine ⟨.mealItem (dset m "name" (.pstr (normalizeName s2))),
          some (.pstr s, dset m "name" (.pstr (normalizeName s2))), ?_, ?_⟩
        · simp [stepMeal, hf, hc, hs2]
        · intro k m2 hr
          cases hr
          rfl

theorem loopMeals_wf (target : Option String) :
    ∀ (items : List Item) (g0 : List (Prim × List Meal)),
      (∀ it ∈ items, wellFormedItem it = true) →
      (∀ g ∈ g0, g.1.isStr = true) →
      ∃ items2 groups, loopMeals target items g0 = .ok (items2, groups) ∧
        ∀ g ∈ groups, g.1.isStr = true := by
  intro items
  induction items with
  | nil => intro g0 _ hg; exact ⟨[], g0, rfl, hg⟩
  | cons it rest ih =>
    intro g0 hwf hg
    have hit : wellFormedItem it = true := hwf it (List.mem_cons_self _ _)
    cases it with
    | primItem p => simp [wellFormedItem] at hit
    | mealItem m =>
      obtain ⟨it2, r, hstep, hkey⟩ := stepMeal_wf target hit
      have hg2 : ∀ g ∈ (match r with
          | none => g0
          | some (k, m2) => addToGroup g0 k m2), g.1.isStr = true := by
        cases r with
        | none => exact hg
        | some kr =>
          obtain ⟨k, m2⟩ := kr
          exact addToGroup_keys (fun q => q.isStr = true) hg (hkey k m2 rfl)
      obtain ⟨rest2, g3, hloop, hg3⟩ :=
        ih _ (fun x hx => hwf x (List.mem_cons_of_mem _ hx)) hg2
      refine ⟨it2 :: rest2, g3, ?_, hg3⟩
      simp [loopMeals, hstep, hloop]

/-- C2 (amended): on any feed conforming to the spec's data model (string
`error` value when present; entries are records with a string floor and a
string-or-absent name), `get_meal_menu` always returns a string and never
raises, for every date argument and floor filter. -/
theorem get_meal_menu_total_on_wellformed (data : Feed) (dateArg : String)
    (target : Option String) (hwf : wellFormedFeed data = true) :
    ∃ s d2, get_meal_menu data dateArg target = retStr s d2 := by
  simp only [wellFormedFeed, Bool.and_eq_true] at hwf
  obtain ⟨herr, hlists⟩ := hwf
  cases he : dget data "error" with
  | some v =>
    rw [he] at herr
    rcases v with items | p | dd
    · simp at herr
    · cases p with
      | pnone => simp at herr
      | pint n => simp at herr
      | pstr s =>
        refine ⟨s, data, ?_⟩
        unfold get_meal_menu
        rw [he]
        rfl
    · simp at herr
  | none =>
    cases hr : resolveDate data dateArg with
    | none => exact ⟨noDataMsg, data, by simp only [get_meal_menu, he, hr]⟩
    | some dateStr =>
      cases hp : strptimeYMD dateStr with
      | none =>
        exact ⟨invalidDateMsg dateArg, data, by simp only [get_meal_menu, he, hr, hp]⟩
      | some ymd =>
        obtain ⟨y, ymd2⟩ := ymd
        obtain ⟨mo, d⟩ := ymd2
        cases hd : dget data dateStr with
        | none =>
          exact ⟨dateNotFoundMsg dateStr, data,
            by simp only [get_meal_menu, he, hr, hp, hd]⟩
        | some dv =>
          cases htr : dv.truthy with
          | false =>
            refine ⟨dateNotFoundMsg dateStr, data, ?_⟩
            simp only [get_meal_menu, he, hr, hp, hd]
            rw [htr]
            rfl
          | true =>
            rcases dv with items | p | dd
            · have hitems : ∀ it ∈ items, wellFormedItem it = true := by
                rw [List.all_eq_true] at hlists
                have hmem := hlists _ (dget_mem hd)
                simp only at hmem
                rw [List.all_eq_true] at hmem
                exact hmem
              obtain ⟨items2, groups, hloop, hkeys⟩ :=
                loopMeals_wf target items [] hitems (by simp)
              cases hge : groups.isEmpty with
              | true =>
                refine ⟨noMatchMsg dateStr target,
                  dset data dateStr (.listVal items2), ?_⟩
                simp only [get_meal_menu, he, hr, hp, hd, hloop, hge]
                rw [htr]
                rfl
              | false =>
                have hsort : ∃ gs, pySorted groups = .ok gs := by
                  have hall : (groups.map Prod.fst).all Prim.isStr = true := by
                    rw [List.all_eq_true]
                    intro k hk
                    obtain ⟨g, hgmem, hgk⟩ := List.mem_map.mp hk
                    rw [← hgk]
                    exact hkeys g hgmem
                  simp [pySorted, hall]
                obtain ⟨gs, hgs⟩ := hsort
                refine ⟨renderReport dateStr (dayNames.getD (pyWeekday y mo d) "") target gs,
                  dset data dateStr (.listVal items2), ?_⟩
                simp only [get_meal_menu, he, hr, hp, hd, hloop, hge, hgs]
                rw [htr]
                rfl
            · refine ⟨malformedMsg dateStr, data, ?_⟩
              simp only [get_meal_menu, he, hr, hp, hd]
              rw [htr]
              rfl
            · refine ⟨malformedMsg dateStr, data, ?_⟩
              simp only [get_meal_menu, he, hr, hp, hd]
              rw [htr]
              rfl

theorem get_meal_menu_total_on_wellformed_witness :
    ∃ s d2, get_meal_menu feedRice "2025-10-23" (some "20F") = retStr s d2 :=
  get_meal_menu_total_on_wellformed feedRice "2025-10-23" (some "20F") (by decide)

/-! helper lemmas for the rendering order -/

theorem charsLe_cons_iff {a b : Char} {as bs : List Char} :
    charsLe (a :: as) (b :: bs) = true ↔ a < b ∨ (a = b ∧ charsLe as bs = true) := by
  by_cases h1 : a < b
  · simp [charsLe, h1]
  · by_cases h2 : b < a
    · simp only [charsLe, if_neg h1, if_pos h2]
      constructor
      · intro h; exact absurd h (by simp)
      · rintro (h | ⟨rfl, _⟩)
        · exact absurd h h1
        · exact absurd h2 (lt_irrefl a)
    · have heq : a = b := le_antisymm (not_lt.mp h2) (not_lt.mp h1)
      subst heq
      simp [charsLe, h1, h2]

theorem charsLe_total : ∀ as bs : List Char, charsLe as bs = true ∨ charsLe bs as = true := by
  intro as
  induction as with
  | nil => intro bs; left; rfl
  | cons a as ih =>
    intro bs
    cases bs with
    | nil => right; rfl
    | cons b bs2 =>
      rcases lt_trichotomy a b with h | h | h
      · left; rw [charsLe_cons_iff]; exact Or.inl h
      · subst h
        rcases ih bs2 with h2 | h2
        · left; rw [charsLe_cons_iff]; exact Or.inr ⟨rfl, h2⟩
        · right; rw [charsLe_cons_iff]; exact Or.inr ⟨rfl, h2⟩
      · right; rw [charsLe_cons_iff]; exact Or.inl h

theorem charsLe_trans : ∀ as bs cs : List Char,
    charsLe as bs = true → charsLe bs cs = true → charsLe as cs = true := by
  intro as
  induction as with
  | nil => intro bs cs _ _; rfl
  | cons a as ih =>
    intro bs cs h1 h2
    cases bs with
    | nil => simp [charsLe] at h1
    | cons b bs2 =>
      cases cs with
      | nil => simp [charsLe] at h2
      | cons c cs2 =>
        rw [charsLe_cons_iff] at h1 h2 ⊢
        rcases h1 with h1 | ⟨rfl, h1⟩
        · rcases h2 with h2 | ⟨rfl, h2⟩
          · exact Or.inl (lt_trans h1 h2)
          · exact Or.inl h1
        · rcases h2 with h2 | ⟨rfl, h2⟩
          · exact Or.inl h2
          · exact Or.inr ⟨rfl, ih bs2 cs2 h1 h2⟩

theorem keyLe_total (a b : Prim) : keyLe a b = true ∨ keyLe b a = true := by
  cases a <;> cases b <;>
    simp [keyLe, Prim.rank, pyStrLe] <;>
    first
    | omega
    | exact Int.le_total _ _
    | exact charsLe_total _ _

theorem keyLe_trans (a b c : Prim) (h1 : keyLe a b = true) (h2 : keyLe b c = true) :
    keyLe a c = true := by
  cases a <;> cases b <;> cases c <;>
    simp_all [keyLe, Prim.rank, pyStrLe] <;>
    first
    | omega
    | exact le_trans h1 h2
    | exact charsLe_trans _ _ _ h1 h2

instance : IsTotal (Prim × List Meal) relK :=
  ⟨fun a b => by
    unfold relK
    rcases keyLe_total a.1 b.1 with h | h
    · exact Or.inl h
    · exact Or.inr h⟩

instance : IsTrans (Prim × List Meal) relK :=
  ⟨fun a b c h1 h2 => keyLe_trans a.1 b.1 c.1 h1 h2⟩

theorem gLookup_addToGroup :
    ∀ (g : List (Prim × List Meal)) (k : Prim) (m : Meal) (k2 : Prim),
      gLookup (addToGroup g k m) k2 =
        if k = k2 then gLookup g k2 ++ [m] else gLookup g k2 := by
  intro g
  induction g with
  | nil =>
    intro k m k2
    by_cases h : k = k2 <;> simp [addToGroup, gLookup, h]
  | cons g1 rest ih =>
    intro k m k2
    obtain ⟨k3, ms⟩ := g1
    by_cases h3 : k3 = k
    · subst h3
      by_cases h2 : k3 = k2
      · subst h2
        simp [addToGroup, gLookup]
      · simp [addToGroup, gLookup, h2]
    · by_cases h2 : k3 = k2
      · subst h2
        have hne : ¬ k = k3 := fun he => h3 he.symm
        simp [addToGroup, gLookup, h3, hne]
      · simp [addToGroup, gLookup, h3, h2, ih k m k2]

theorem keysOf_addToGroup (g : List (Prim × List Meal)) (k : Prim) (m : Meal) :
    keysOf (addToGroup g k m) =
      if k ∈ keysOf g then keysOf g else keysOf g ++ [k] := by
  induction g with
  | nil => simp [addToGroup, keysOf]
  | cons g1 rest ih =>
    obtain ⟨k3, ms⟩ := g1
    by_cases h3 : k3 = k
    · subst h3
      simp [addToGroup, keysOf]
    · have hne : ¬ k = k3 := fun he => h3 he.symm
      simp only [addToGroup, if_neg h3, keysOf, List.map_cons]
      simp only [keysOf] at ih
      rw [ih]
      by_cases hm2 : k ∈ List.map Prod.fst rest
      · simp [hm2, hne]
      · simp [hm2, hne]

theorem loopMeals_nodup {target : Option String} :
    ∀ {items : List Item} {g0 : List (Prim × List Meal)} {items2 groups},
      loopMeals target items g0 = .ok (items2, groups) →
      (keysOf g0).Nodup → (keysOf groups).Nodup := by
  intro items
  induction items with
  | nil =>
    intro g0 items2 groups h hnd
    simp only [loopMeals, Except.ok.injEq, Prod.mk.injEq] at h
    rw [← h.2]
    exact hnd
  | cons it rest ih =>
    intro g0 items2 groups h hnd
    simp only [loopMeals] at h
    cases hstep : stepMeal target it with
    | error e => rw [hstep] at h; simp at h
    | ok pr =>
      obtain ⟨it2, r⟩ := pr
      rw [hstep] at h
      cases r with
      | none =>
        simp only at h
        cases hrec : loopMeals target rest g0 with
        | error e => rw [hrec] at h; simp at h
        | ok pr2 =>
          obtain ⟨rest2, g3⟩ := pr2
          rw [hrec] at h
          simp only [Except.ok.injEq, Prod.mk.injEq] at h
          rw [← h.2]
          exact ih hrec hnd
      | some kr =>
        obtain ⟨k2, m2⟩ := kr
        simp only at h
        cases hrec : loopMeals target rest (addToGroup g0 k2 m2) with
        | error e => rw [hrec] at h; simp at h
        | ok pr2 =>
          obtain ⟨rest2, g3⟩ := pr2
          rw [hrec] at h
          simp only [Except.ok.injEq, Prod.mk.injEq] at h
          rw [← h.2]
          refine ih hrec ?_
          rw [keysOf_addToGroup]
          by_cases hm2 : k2 ∈ keysOf g0
          · simp [hm2, hnd]
          · simp [hm2, hnd, List.nodup_append]

theorem loopMeals_buckets {target : Option String} :
    ∀ {items : List Item} {g0 : List (Prim × List Meal)} {items2 groups},
      loopMeals target items g0 = .ok (items2, groups) →
      ∀ k, gLookup groups k = gLookup g0 k ++ items.filterMap (retainedAs target k) := by
  intro items
  induction items with
  | nil =>
    intro g0 items2 groups h k
    simp only [loopMeals, Except.ok.injEq, Prod.mk.injEq] at h
    rw [← h.2]
    simp
  | cons it rest ih =>
    intro g0 items2 groups h k
    simp only [loopMeals] at h
    cases hstep : stepMeal target it with
    | error e => rw [hstep] at h; simp at h
    | ok pr =>
      obtain ⟨it2, r⟩ := pr
      rw [hstep] at h
      cases r with
      | none =>
        simp only at h
        cases hrec : loopMeals target rest g0 with
        | error e => rw [hrec] at h; simp at h
        | ok pr2 =>
          obtain ⟨rest2, g3⟩ := pr2
          rw [hrec] at h
          simp only [Except.ok.injEq, Prod.mk.injEq] at h
          rw [← h.2]
          have hr : retainedAs target k it = none := by
            simp [retainedAs, hstep]
          rw [List.filterMap_cons, hr]
          exact ih hrec k
      | some kr =>
        obtain ⟨k2, m2⟩ := kr
        simp only at h
        cases hrec : loopMeals target rest (addToGroup g0 k2 m2) with
        | error e => rw [hrec] at h; simp at h
        | ok pr2 =>
          obtain ⟨rest2, g3⟩ := pr2
          rw [hrec] at h
          simp only [Except.ok.injEq, Prod.mk.injEq] at h
          rw [← h.2]
          have hr : retainedAs target k it = if k2 = k then some m2 else none := by
            simp [retainedAs, hstep]
          rw [List.filterMap_cons, hr]
          have hrec2 := ih hrec k
          rw [gLookup_addToGroup] at hrec2
          by_cases hk : k2 = k
          · rw [hrec2]
            simp [hk, List.append_assoc]
          · rw [hrec2]
            simp [hk]

theorem gLookup_of_mem_nodup :
    ∀ {g : List (Prim × List Meal)} {p : Prim × List Meal},
      (keysOf g).Nodup → p ∈ g → gLookup g p.1 = p.2 := by
  intro g
  induction g with
  | nil => intro p _ hp; simp at hp
  | cons g1 rest ih =>
    intro p hnd hp
    obtain ⟨k3, ms⟩ := g1
    rcases List.mem_cons.mp hp with h | h
    · rw [h]
      simp [gLookup]
    · have hk3 : k3 ∉ keysOf rest := by
        simp only [keysOf, List.map_cons, List.nodup_cons] at hnd
        exact hnd.1
      have hne : ¬ k3 = p.1 := by
        intro he
        apply hk3
        rw [he]
        exact List.mem_map_of_mem Prod.fst h
      simp only [gLookup, if_neg hne]
      refine ih ?_ h
      simp only [keysOf, List.map_cons, List.nodup_cons] at hnd
      exact hnd.2

theorem retained_shape {target : Option String} {m : Meal} {k : Prim} {m2 : Meal}
    (h : retainedAs target k (.mealItem m) = some m2) :
    ∃ s0, (dget m "name").getD (Prim.pstr "N/A") = Prim.pstr s0 ∧
      m2 = dset m "name" (.pstr (normalizeName s0)) := by
  rcases hmf : (dget m "floor").getD Prim.pnone with _ | n | s
  · by_cases hc : (floorTruthy target && Prim.truthy Prim.pnone) = true
    · simp [Prim.truthy] at hc
    · cases hn : (dget m "name").getD (Prim.pstr "N/A") with
      | pnone => simp [retainedAs, stepMeal, hmf, hn, hc] at h
      | pint n2 => simp [retainedAs, stepMeal, hmf, hn, hc] at h
      | pstr s0 =>
        refine ⟨s0, rfl, ?_⟩
        simp only [retainedAs, stepMeal, hmf, hn, hc] at h
        by_cases hk : (Prim.pnone : Prim) = k
        · simp [hk] at h
          exact h.symm
        · simp [hk] at h
  · by_cases hc : (floorTruthy target && Prim.truthy (Prim.pint n)) = true
    · simp [retainedAs, stepMeal, hmf, hc] at h
    · cases hn : (dget m "name").getD (Prim.pstr "N/A") with
      | pnone => simp [retainedAs, stepMeal, hmf, hn, hc] at h
      | pint n2 => simp [retainedAs, stepMeal, hmf, hn, hc] at h
      | pstr s0 =>
        refine ⟨s0, rfl, ?_⟩
        simp only [retainedAs, stepMeal, hmf, hn, hc] at h
        by_cases hk : Prim.pint n = k
        · simp [hk] at h
          exact h.symm
        · simp [hk] at h
  · by_cases hc : (floorTruthy target && Prim.truthy (Prim.pstr s)) = true
    · by_cases hs : pyUpper (target.getD "") ≠ pyUpper s
      · simp [retainedAs, stepMeal, hmf, hc, hs] at h
      · cases hn : (dget m "name").getD (Prim.pstr "N/A") with
        | pnone => simp [retainedAs, stepMeal, hmf, hn, hc, hs] at h
        | pint n2 => simp [retainedAs, stepMeal, hmf, hn, hc, hs] at h
        | pstr s0 =>
          refine ⟨s0, rfl, ?_⟩
          simp only [retainedAs, stepMeal, hmf, hn, hc, hs] at h
          by_cases hk : Prim.pstr s = k
          · simp [hk, hs] at h
            exact h.symm
          · simp [hk, hs] at h
    · cases hn : (dget m "name").getD (Prim.pstr "N/A") with
      | pnone => simp [retainedAs, stepMeal, hmf, hn, hc] at h
      | pint n2 => simp [retainedAs, stepMeal, hmf, hn, hc] at h
      | pstr s0 =>
        refine ⟨s0, rfl, ?_⟩
        simp only [retainedAs, stepMeal, hmf, hn, hc] at h
        by_cases hk : Prim.pstr s = k
        · simp [hk] at h
          exact h.symm
        · simp [hk] at h

/-- C9: on every successful render, the report is the header plus one section
per floor group in the sorted-key order `gs`, where (a) the floor keys of
`gs` are strictly ascending in code-point lexicographic order, (b) `gs` is a
permutation of the loop's grouping so no section is lost, (c) each floor's
bucket holds exactly the retained entries of that floor in original feed
order, (d) sections and entry lines have the fixed shapes
`"📍 <floor>"` and `"  - <type>: <name>"`, and (e) every retained record's
name is the original name with line breaks replaced by comma-space. -/
theorem report_sorted_floors_and_entry_lines
    (data : Feed) (dateArg : String) (target : Option String)
    (y mo d : Nat) (items items2 : List Item)
    (groups gs : List (Prim × List Meal))
    (herr : dget data "error" = none)
    (hm : dateArg ≠ "USE_LATEST_DATE")
    (hp : strptimeYMD dateArg = some (y, mo, d))
    (hd : dget data dateArg = some (DayVal.listVal items))
    (hne : items.isEmpty = false)
    (hloop : loopMeals target items [] = .ok (items2, groups))
    (hkeys : ∀ g ∈ groups, g.1.isStr = true)
    (hge : groups.isEmpty = false)
    (hsort : pySorted groups = .ok gs) :
    get_meal_menu data dateArg target =
      retStr (renderReport dateArg (dayNames.getD (pyWeekday y mo d) "") target gs)
        (dset data dateArg (.listVal items2)) ∧
    List.Pairwise (fun a b : Prim × List Meal =>
      pyStrLe (primStr a.1) (primStr b.1) = true ∧ primStr a.1 ≠ primStr b.1) gs ∧
    gs.Perm groups ∧
    (∀ p ∈ gs, p.2 = items.filterMap (retainedAs target p.1)) ∧
    (∀ p ∈ gs, floorSection p = "📍 " ++ primStr p.1 ++ "\n"
      ++ String.join (p.2.map mealLine) ++ sep20 ++ "\n") ∧
    (∀ m2 : Meal, mealLine m2 = "  - " ++ primStr ((dget m2 "type").getD (.pstr "N/A"))
      ++ ": " ++ primStr ((dget m2 "name").getD (.pstr "N/A")) ++ "\n") ∧
    (∀ (m : Meal) (k : Prim) (m2 : Meal),
      retainedAs target k (.mealItem m) = some m2 →
      ∃ s0, (dget m "name").getD (Prim.pstr "N/A") = Prim.pstr s0 ∧
        m2 = dset m "name" (.pstr (normalizeName s0))) := by
  have htr : (DayVal.listVal items).truthy = true := by
    simp [DayVal.truthy, hne]
  have hall : (groups.map Prod.fst).all Prim.isStr = true := by
    rw [List.all_eq_true]
    intro k hk
    obtain ⟨g, hgmem, hgk⟩ := List.mem_map.mp hk
    rw [← hgk]
    exact hkeys g hgmem
  have hgs : gs = List.insertionSort relK groups := by
    have h2 : (Except.ok (List.insertionSort relK groups) : Except PyErr (List (Prim × List Meal))) = Except.ok gs := by
      rw [← hsort]
      simp [pySorted, hall]
    injection h2 with h3
    exact h3.symm
  have hsorted : List.Sorted relK gs := by
    rw [hgs]
    exact List.sorted_insertionSort relK groups
  have hperm : gs.Perm groups := by
    rw [hgs]
    exact List.perm_insertionSort relK groups
  have hnodupg : (keysOf groups).Nodup := loopMeals_nodup hloop (by simp [keysOf])
  have hnodup : (keysOf gs).Nodup := ((hperm.map Prod.fst).nodup_iff).mpr hnodupg
  have hkeysgs : ∀ p ∈ gs, p.1.isStr = true := fun p hp2 => hkeys p (hperm.subset hp2)
  refine ⟨?_, ?_, hperm, ?_, fun p _ => rfl, fun m2 => rfl,
    fun m k m2 h => retained_shape h⟩
  · simp only [get_meal_menu, herr, resolveDate_not_marker hm, hp, hd, hloop, hge, hsort]
    rw [htr]
    rfl
  · have hpairne : List.Pairwise (fun a b : Prim × List Meal => a.1 ≠ b.1) gs := by
      have h2 : (gs.map Prod.fst).Pairwise (· ≠ ·) := hnodup
      exact (List.pairwise_map).mp h2
    have hcomb := hsorted.and hpairne
    refine List.Pairwise.imp_of_mem ?_ hcomb
    intro a b ha hb hab
    obtain ⟨hr, hne2⟩ := hab
    have hsa := hkeysgs a ha
    have hsb := hkeysgs b hb
    rcases a with ⟨ka, va⟩
    rcases b with ⟨kb, vb⟩
    rcases ka with _ | na | sa2
    · simp [Prim.isStr] at hsa
    · simp [Prim.isStr] at hsa
    · rcases kb with _ | nb | sb2
      · simp [Prim.isStr] at hsb
      · simp [Prim.isStr] at hsb
      · refine ⟨?_, ?_⟩
        · simpa [relK, keyLe, primStr] using hr
        · intro he
          simp only [primStr] at he
          exact hne2 (by rw [he])
  · intro p hp2
    have hpg : p ∈ groups := hperm.subset hp2
    have hb := loopMeals_buckets hloop p.1
    have h2 := gLookup_of_mem_nodup hnodupg hpg
    rw [h2] at hb
    simpa [gLookup] using hb

theorem report_sorted_floors_and_entry_lines_witness :
    get_meal_menu feedRice "2025-10-23" none =
      retStr (renderReport "2025-10-23" (dayNames.getD (pyWeekday 2025 10 23) "") none
        groupsRice) (dset feedRice "2025-10-23" (.listVal itemsRice2)) ∧
    List.Pairwise (fun a b : Prim × List Meal =>
      pyStrLe (primStr a.1) (primStr b.1) = true ∧ primStr a.1 ≠ primStr b.1)
      groupsRice := by
  have h := report_sorted_floors_and_entry_lines feedRice "2025-10-23" none 2025 10 23
    itemsRice itemsRice2 groupsRice groupsRice rfl (by decide) rfl rfl rfl rfl
    (by decide) rfl rfl
  exact ⟨h.1, h.2.1⟩

end Bob
